import Mathlib

/-
Verification development for the epigenetic nucleosome-memory simulator.
The repository simulates a 1-D array of N nucleosomes, each carrying one of
three marks (A = acetylated, U = unmodified, M = methylated), updated one
site per tick either by a feedback-driven (recruited) conversion or by a
spontaneous noise conversion.  Randomness is modelled by an explicit oracle
record (`Tick`) holding the uniform draws a tick may consume; real-valued
draws are rationals in [0,1), index draws are naturals.
-/

/-- The three nucleosome marks (source: `A, U, M = 0, 1, 2` in every file). -/
inductive Mark where
  | A
  | U
  | M
deriving DecidableEq

/-- Feedback probability, `alpha = F / (1 + F)` (avg_lifetime.py line 23;
written `F / (F + 1)` in the other files, the same value). -/
def alpha (F : ℚ) : ℚ := F / (1 + F)

/-- The random draws one simulation tick may consume.  `r0` is the
feedback-vs-noise coin, `n1` the target index, `n2`/`n3` recruiter indices,
`rdir` the direction coin of the spatial modes, `dist` the distance drawn
from the power-law distribution, `rn` the noise-conversion draw. -/
structure Tick where
  r0 : ℚ
  n1 : ℕ
  n2 : ℕ
  n3 : ℕ
  rdir : ℚ
  dist : ℕ
  rn : ℚ

/-- The noise sub-rule applied to the target mark with uniform draw `r`
(avg_lifetime.py lines 40-49; textually repeated in every other step
function, with the no-op `else: state[n1] = U` branch left implicit in
the core_code copies). -/
def noiseUpdate (t : Mark) (r : ℚ) : Mark :=
  match t with
  | .A => if r < 1/3 then .U else .A
  | .U => if r < 1/3 then .A else if r < 2/3 then .M else .U
  | .M => if r < 1/3 then .U else .M

/-- The full (modify + demodify) recruited-conversion table shared by the
Case-A / standard step functions: recruiter M sends A to U and U to M,
recruiter A sends M to U and U to A, recruiter U changes nothing
(avg_lifetime.py lines 29-38 and the identical blocks in core_code). -/
def recruitFull (t recr : Mark) : Mark :=
  match recr with
  | .M =>
    match t with
    | .A => .U
    | .U => .M
    | .M => .M
  | .A =>
    match t with
    | .M => .U
    | .U => .A
    | .A => .A
  | .U => t

/-- Case-B (modify-only) recruited-conversion table
(coop_noncoop.py lines 71-72, 89-90). -/
def recruitMod (t recr : Mark) : Mark :=
  match recr, t with
  | .M, .U => .M
  | .A, .U => .A
  | _, _ => t

/-- Case-C (demodify-only) recruited-conversion table
(coop_noncoop.py lines 104-105, 121-122). -/
def recruitDemod (t recr : Mark) : Mark :=
  match recr, t with
  | .M, .A => .U
  | .A, .M => .U
  | _, _ => t

/-- Python-style wrap-around of an integer index into `[0, n)`
(the `% N` of the neighbour and power-law modes; Int.emod is
non-negative for a positive modulus, as in Python). -/
def wrapIdx (a : ℤ) (n : ℕ) : ℕ := (a % (n : ℤ)).toNat

namespace AvgLifetime

/-- One update of avg_lifetime.py `step` (lines 21-50): coin `r0` against
alpha, then either the full recruited conversion of target `n1` against
recruiter `n2`, or the noise sub-rule at `n1`. -/
def step (F : ℚ) (s : List Mark) (t : Tick) : List Mark :=
  if t.r0 < alpha F then
    s.set t.n1 (recruitFull (s.getD t.n1 .U) (s.getD t.n2 .U))
  else
    s.set t.n1 (noiseUpdate (s.getD t.n1 .U) t.rn)

end AvgLifetime

namespace SpatialRecruit

/-- spatial_recuit.py `standard` (lines 19-46): global recruiter `n2`,
guarded by `state[n2] != U`, full conversion table; noise otherwise. -/
def standard (F : ℚ) (s : List Mark) (t : Tick) : List Mark :=
  if t.r0 < alpha F then
    if s.getD t.n2 .U ≠ .U then
      s.set t.n1 (recruitFull (s.getD t.n1 .U) (s.getD t.n2 .U))
    else s
  else
    s.set t.n1 (noiseUpdate (s.getD t.n1 .U) t.rn)

/-- Recruiter index of the neighbour-limited mode (spatial_recuit.py
line 59): the left neighbour `(n1 - 1) % N` when `rdir < 0.5`, the right
neighbour `(n1 + 1) % N` otherwise. -/
def nbrIndex (t : Tick) (len : ℕ) : ℕ :=
  if t.rdir < 1/2 then wrapIdx ((t.n1 : ℤ) - 1) len
  else wrapIdx ((t.n1 : ℤ) + 1) len

/-- spatial_recuit.py `neighbour_limited` (lines 51-74): recruiter is the
left or right neighbour of `n1` (mod N, coin `rdir`); the noise branch
delegates to `standard` with F = 0, consuming the fresh draws `inner`. -/
def neighbour_limited (F : ℚ) (s : List Mark) (t inner : Tick) : List Mark :=
  if t.r0 < alpha F then
    if s.getD (nbrIndex t s.length) .U ≠ .U then
      s.set t.n1 (recruitFull (s.getD t.n1 .U) (s.getD (nbrIndex t s.length) .U))
    else s
  else standard 0 s inner

/-- Recruiter index of the power-law mode (spatial_recuit.py line 93):
`(n1 + d) % N` when `rdir < 0.5`, `(n1 - d) % N` otherwise. -/
def plIndex (t : Tick) (len : ℕ) : ℕ :=
  if t.rdir < 1/2 then wrapIdx ((t.n1 : ℤ) + t.dist) len
  else wrapIdx ((t.n1 : ℤ) - t.dist) len

/-- spatial_recuit.py `power_law_contact` (lines 80-109): the recruiter
distance `dist` is the oracle draw from the power-law distribution
(`power_probs` below embeds that distribution), the direction is chosen by
coin `rdir`; the noise branch delegates to `standard` with F = 0. -/
def power_law_contact (F : ℚ) (s : List Mark) (t inner : Tick) : List Mark :=
  if t.r0 < alpha F then
    if s.getD (plIndex t s.length) .U ≠ .U then
      s.set t.n1 (recruitFull (s.getD t.n1 .U) (s.getD (plIndex t s.length) .U))
    else s
  else standard 0 s inner

/-- Unnormalized power-law weight `1 / d ** 1.5` of spatial_recuit.py line 88
(and pd_spatial_recrut.py line 90); for d ≥ 0 the real `d ^ 1.5` equals
`Real.sqrt (d ^ 3)`. -/
noncomputable def power_weight (d : ℕ) : ℝ := 1 / Real.sqrt ((d : ℝ) ^ 3)

/-- Normalized power-law distance probability over distances 1 .. N-1
(spatial_recuit.py lines 87-89: `probs /= probs.sum()`). -/
noncomputable def power_probs (N d : ℕ) : ℝ :=
  power_weight d / ∑ k in Finset.Icc 1 (N - 1), power_weight k

end SpatialRecruit

namespace CoopNoncoop

/-- coop_noncoop.py `step_coop_A` (lines 22-43): two recruiter draws
`n2`, `n3` must agree on a non-U mark for the full conversion to fire;
otherwise the feedback branch changes nothing. -/
def step_coop_A (F : ℚ) (s : List Mark) (t : Tick) : List Mark :=
  if t.r0 < alpha F then
    if s.getD t.n2 .U = s.getD t.n3 .U ∧ s.getD t.n2 .U ≠ .U then
      s.set t.n1 (recruitFull (s.getD t.n1 .U) (s.getD t.n2 .U))
    else s
  else
    s.set t.n1 (noiseUpdate (s.getD t.n1 .U) t.rn)

/-- coop_noncoop.py `step_noncoop_A` (lines 45-60): single recruiter `n2`
guarded by `state[n2] != U`; the noise branch delegates to
`step_coop_A(state, 0)`, consuming the fresh draws `inner`. -/
def step_noncoop_A (F : ℚ) (s : List Mark) (t inner : Tick) : List Mark :=
  if t.r0 < alpha F then
    if s.getD t.n2 .U ≠ .U then
      s.set t.n1 (recruitFull (s.getD t.n1 .U) (s.getD t.n2 .U))
    else s
  else step_coop_A 0 s inner

/-- coop_noncoop.py `step_coop_B` (lines 64-80): cooperative consensus,
modify-only table. -/
def step_coop_B (F : ℚ) (s : List Mark) (t : Tick) : List Mark :=
  if t.r0 < alpha F then
    if s.getD t.n2 .U = s.getD t.n3 .U ∧ s.getD t.n2 .U ≠ .U then
      s.set t.n1 (recruitMod (s.getD t.n1 .U) (s.getD t.n2 .U))
    else s
  else
    s.set t.n1 (noiseUpdate (s.getD t.n1 .U) t.rn)

/-- coop_noncoop.py `step_noncoop_B` (lines 82-93). -/
def step_noncoop_B (F : ℚ) (s : List Mark) (t inner : Tick) : List Mark :=
  if t.r0 < alpha F then
    if s.getD t.n2 .U ≠ .U then
      s.set t.n1 (recruitMod (s.getD t.n1 .U) (s.getD t.n2 .U))
    else s
  else step_coop_B 0 s inner

/-- coop_noncoop.py `step_coop_C` (lines 97-113): the consensus guard is
only `state[n2] == state[n3]` (no explicit non-U check); with a U verdict
the demodify table changes nothing. -/
def step_coop_C (F : ℚ) (s : List Mark) (t : Tick) : List Mark :=
  if t.r0 < alpha F then
    if s.getD t.n2 .U = s.getD t.n3 .U then
      s.set t.n1 (recruitDemod (s.getD t.n1 .U) (s.getD t.n2 .U))
    else s
  else
    s.set t.n1 (noiseUpdate (s.getD t.n1 .U) t.rn)

/-- coop_noncoop.py `step_noncoop_C` (lines 115-125): no guard at all on
the recruiter draw; the demodify table itself ignores a U recruiter. -/
def step_noncoop_C (F : ℚ) (s : List Mark) (t inner : Tick) : List Mark :=
  if t.r0 < alpha F then
    s.set t.n1 (recruitDemod (s.getD t.n1 .U) (s.getD t.n2 .U))
  else step_coop_C 0 s inner

end CoopNoncoop

/-- The step-function variants of the repository: the avg_lifetime step,
the three spatial modes, and the cooperative / non-cooperative Case A/B/C
rule sets. -/
inductive StepVariant where
  | avgStep
  | global
  | neighbour
  | powerlaw
  | coopA
  | noncoopA
  | coopB
  | noncoopB
  | coopC
  | noncoopC
deriving DecidableEq

/-- Dispatch of one tick of any variant.  `inner` carries the fresh draws
consumed by the F = 0 delegated call in the wrapper variants; the inline
variants ignore it. -/
def stepVariant (v : StepVariant) (F : ℚ) (s : List Mark) (t inner : Tick) :
    List Mark :=
  match v with
  | .avgStep => AvgLifetime.step F s t
  | .global => SpatialRecruit.standard F s t
  | .neighbour => SpatialRecruit.neighbour_limited F s t inner
  | .powerlaw => SpatialRecruit.power_law_contact F s t inner
  | .coopA => CoopNoncoop.step_coop_A F s t
  | .noncoopA => CoopNoncoop.step_noncoop_A F s t inner
  | .coopB => CoopNoncoop.step_coop_B F s t
  | .noncoopB => CoopNoncoop.step_noncoop_B F s t inner
  | .coopC => CoopNoncoop.step_coop_C F s t
  | .noncoopC => CoopNoncoop.step_noncoop_C F s t inner

/-- A finite sequence of ticks of arbitrary variants, folded over a state. -/
def runVariants (qs : List (StepVariant × ℚ × Tick × Tick)) (s : List Mark) :
    List Mark :=
  qs.foldl (fun st q => stepVariant q.1 q.2.1 st q.2.2.1 q.2.2.2) s

/-- Number of sites carrying mark `m` (the `np.sum(state == M)` counts). -/
def countMark (s : List Mark) (m : Mark) : ℕ :=
  s.countP (fun x => decide (x = m))

/-- The two non-null dominance labels of the lifetime classification. -/
inductive DomLabel where
  | Mdom
  | Adom
deriving DecidableEq

namespace AvgLifetime

/-- The 1.5-fold dominance classification of avg_lifetime.py
`calculate_lifetime` lines 71-76: M-dominant when `M1 > 1.5 * A1`, tested
first; A-dominant when `A1 > 1.5 * M1`; otherwise the null (mixed) label. -/
def label (mcount acount : ℕ) : Option DomLabel :=
  if (mcount : ℚ) > 1.5 * acount then some .Mdom
  else if (acount : ℚ) > 1.5 * mcount then some .Adom
  else none

/-- The same two dominance tests performed in the opposite order,
A-dominance first; used to state that the classification result is
independent of the order in which the two conditions are tested. -/
def labelAFirst (mcount acount : ℕ) : Option DomLabel :=
  if (acount : ℚ) > 1.5 * mcount then some .Adom
  else if (mcount : ℚ) > 1.5 * acount then some .Mdom
  else none

/-- Tracker state of the lifetime loop of `calculate_lifetime`
(lines 61-63): the currently open label, its running duration, and the
durations recorded so far. -/
structure TrackSt where
  cur : Option DomLabel
  dur : ℕ
  durs : List ℕ

/-- Initial tracker state (`current_state = None`, `current_duration = 0`,
`durations = []`). -/
def trackInit : TrackSt := ⟨none, 0, []⟩

/-- One iteration of the run-length loop of `calculate_lifetime`
(lines 79-85): an equal label extends the open run; a different label
first records the open run when a non-null label was open, then starts a
fresh run of duration 1 under the new label. -/
def trackStep (st : TrackSt) (lab : Option DomLabel) : TrackSt :=
  if lab = st.cur then ⟨st.cur, st.dur + 1, st.durs⟩
  else
    match st.cur with
    | none => ⟨lab, 1, st.durs⟩
    | some _ => ⟨lab, 1, st.durs ++ [st.dur]⟩

/-- End-of-trajectory flush of `calculate_lifetime` (lines 88-89): a
still-open non-null run is recorded. -/
def trackFlush (st : TrackSt) : List ℕ :=
  match st.cur with
  | none => st.durs
  | some _ => st.durs ++ [st.dur]

/-- The durations recorded by feeding a whole label sequence through the
run-length loop and flushing at the end. -/
def recordedDurations (labs : List (Option DomLabel)) : List ℕ :=
  trackFlush (labs.foldl trackStep trackInit)

/-- The return value of `calculate_lifetime` (line 92):
`np.mean(durations) if durations else 0`. -/
def meanOrZero (l : List ℕ) : ℚ :=
  if l = [] then 0 else (l.map (fun d => (d : ℚ))).sum / l.length

/-- Lifetime statistic of a label sequence: mean recorded duration, or 0
when nothing was recorded. -/
def lifetimeFromLabels (labs : List (Option DomLabel)) : ℚ :=
  meanOrZero (recordedDurations labs)

/-- Per-tick gap contribution of `compute_gap_measure` (lines 109-112):
the sample `|M1 - A1| / (M1 + A1)` on ticks with `M1 + A1 > 0`, nothing
otherwise. -/
def gapContrib (s : List Mark) : ℚ :=
  if 0 < countMark s .M + countMark s .A then
    |(countMark s .M : ℚ) - (countMark s .A : ℚ)| /
      ((countMark s .M : ℚ) + (countMark s .A : ℚ))
  else 0

/-- Fold a list of ticks through `step` (the equilibration loop of
`compute_gap_measure`, lines 104-105). -/
def stepTraj (F : ℚ) (s : List Mark) (ticks : List Tick) : List Mark :=
  ticks.foldl (fun st t => step F st t) s

/-- The post-step states visited along a tick sequence, in order. -/
def trajStates (F : ℚ) (s : List Mark) : List Tick → List (List Mark)
  | [] => []
  | t :: rest => step F s t :: trajStates F (step F s t) rest

/-- avg_lifetime.py `compute_gap_measure` (lines 97-114), with the initial
state and the two random tick sequences (equilibration prefix, main loop)
made explicit: step through the equilibration prefix, accumulate the
guarded gap samples over the main loop, and divide by the number of
main-loop ticks unconditionally. -/
def compute_gap_measure (F : ℚ) (s0 : List Mark)
    (eqTicks mainTicks : List Tick) : ℚ :=
  (mainTicks.foldl
    (fun (p : List Mark × ℚ) t =>
      (step F p.1 t, p.2 + gapContrib (step F p.1 t)))
    (stepTraj F s0 eqTicks, 0)).2 / mainTicks.length

/-- The sum of the valid gap samples over the main loop, written directly
as a sum over the visited states. -/
def gapSamplesSum (F : ℚ) (s0 : List Mark)
    (eqTicks mainTicks : List Tick) : ℚ :=
  ((trajStates F (stepTraj F s0 eqTicks) mainTicks).map gapContrib).sum

end AvgLifetime

/-- Whether a variant implements its noise branch by delegating to the base
step with F forced to 0 (and hence by fresh draws), rather than inline. -/
def delegatesNoise : StepVariant → Bool
  | .neighbour => true
  | .powerlaw => true
  | .noncoopA => true
  | .noncoopB => true
  | .noncoopC => true
  | _ => false

/-- The index at which the noise sub-rule acts when the tick lands on
noise: the outer target `n1` for the inline variants, the freshly drawn
target of the delegated F = 0 call for the wrapper variants. -/
def noiseTarget (v : StepVariant) (t inner : Tick) : ℕ :=
  if delegatesNoise v then inner.n1 else t.n1

/-- The uniform draw consumed by the noise sub-rule of a tick landing on
noise, matching `noiseTarget`. -/
def noiseDraw (v : StepVariant) (t inner : Tick) : ℚ :=
  if delegatesNoise v then inner.rn else t.rn

/-- Concrete tick with every draw zero (all draws in range, noise branch
for any F with alpha F le 0 draw handling). -/
def tkZero : Tick := ⟨0, 0, 0, 0, 0, 0, 0⟩

/-- Concrete tick for the invalid-parameter experiments: coin 1/2, target
site 0, recruiter site 1. -/
def tkC3 : Tick := ⟨1/2, 0, 1, 0, 0, 0, 0⟩

/-- Outer tick of the delegated-noise experiment: feedback coin 1/2 (so a
tick with alpha le 1/2 lands on noise), target site 0. -/
def tkOuterC4 : Tick := ⟨1/2, 0, 0, 0, 0, 0, 0⟩

/-- Inner (fresh) draws of the delegated F = 0 call in the same
experiment: the freshly drawn target is site 1. -/
def tkInnerC4 : Tick := ⟨0, 1, 0, 0, 0, 0, 0⟩

/-- Concrete feedback tick for the cooperative-consensus experiment:
coin 0, target site 0, recruiters at sites 0 and 1. -/
def tkC7 : Tick := ⟨0, 0, 0, 1, 0, 0, 0⟩

/-- The hand-constructed label sequence of the lifetime-tracker test:
M, M, M, mixed, A, A, mixed, mixed, M. -/
def c5Labels : List (Option DomLabel) :=
  [some .Mdom, some .Mdom, some .Mdom, none, some .Adom, some .Adom,
    none, none, some .Mdom]

lemma set_getD_self (s : List Mark) (i : ℕ) (d : Mark) :
    s.set i (s.getD i d) = s := by
  induction s generalizing i with
  | nil => simp
  | cons a l ih =>
    cases i with
    | zero => simp [List.getD]
    | succ j => exact congrArg (List.cons a) (ih j)

lemma getD_set_ne (s : List Mark) (i j : ℕ) (x d : Mark) (h : j ≠ i) :
    (s.set i x).getD j d = s.getD j d := by
  rw [List.getD_eq_getElem?_getD, List.getD_eq_getElem?_getD,
    List.getElem?_set_ne (fun he => h he.symm)]

/-- Every variant either leaves the state unchanged or rewrites one site. -/
lemma stepVariant_shape (v : StepVariant) (F : ℚ) (s : List Mark)
    (t inner : Tick) :
    stepVariant v F s t inner = s ∨
      ∃ i x, stepVariant v F s t inner = s.set i x := by
  have hA : ∀ G u, CoopNoncoop.step_coop_A G s u = s ∨
      ∃ i x, CoopNoncoop.step_coop_A G s u = s.set i x := by
    intro G u
    unfold CoopNoncoop.step_coop_A
    split_ifs
    · exact Or.inr ⟨_, _, rfl⟩
    · exact Or.inl rfl
    · exact Or.inr ⟨_, _, rfl⟩
  have hB : ∀ G u, CoopNoncoop.step_coop_B G s u = s ∨
      ∃ i x, CoopNoncoop.step_coop_B G s u = s.set i x := by
    intro G u
    unfold CoopNoncoop.step_coop_B
    split_ifs
    · exact Or.inr ⟨_, _, rfl⟩
    · exact Or.inl rfl
    · exact Or.inr ⟨_, _, rfl⟩
  have hC : ∀ G u, CoopNoncoop.step_coop_C G s u = s ∨
      ∃ i x, CoopNoncoop.step_coop_C G s u = s.set i x := by
    intro G u
    unfold CoopNoncoop.step_coop_C
    split_ifs
    · exact Or.inr ⟨_, _, rfl⟩
    · exact Or.inl rfl
    · exact Or.inr ⟨_, _, rfl⟩
  have hStd : ∀ G u, SpatialRecruit.standard G s u = s ∨
      ∃ i x, SpatialRecruit.standard G s u = s.set i x := by
    intro G u
    unfold SpatialRecruit.standard
    split_ifs
    · exact Or.inr ⟨_, _, rfl⟩
    · exact Or.inl rfl
    · exact Or.inr ⟨_, _, rfl⟩
  cases v with
  | avgStep =>
    have : AvgLifetime.step F s t = s ∨
        ∃ i x, AvgLifetime.step F s t = s.set i x := by
      unfold AvgLifetime.step
      split_ifs
      · exact Or.inr ⟨_, _, rfl⟩
      · exact Or.inr ⟨_, _, rfl⟩
    exact this
  | global => exact hStd F t
  | neighbour =>
    have : SpatialRecruit.neighbour_limited F s t inner = s ∨
        ∃ i x, SpatialRecruit.neighbour_limited F s t inner = s.set i x := by
      unfold SpatialRecruit.neighbour_limited
      split_ifs
      · exact Or.inr ⟨_, _, rfl⟩
      · exact Or.inl rfl
      · exact hStd 0 inner
    exact this
  | powerlaw =>
    have : SpatialRecruit.power_law_contact F s t inner = s ∨
        ∃ i x, SpatialRecruit.power_law_contact F s t inner = s.set i x := by
      unfold SpatialRecruit.power_law_contact
      split_ifs
      · exact Or.inr ⟨_, _, rfl⟩
      · exact Or.inl rfl
      · exact hStd 0 inner
    exact this
  | coopA => exact hA F t
  | noncoopA =>
    have : CoopNoncoop.step_noncoop_A F s t inner = s ∨
        ∃ i x, CoopNoncoop.step_noncoop_A F s t inner = s.set i x := by
      unfold CoopNoncoop.step_noncoop_A
      split_ifs
      · exact Or.inr ⟨_, _, rfl⟩
      · exact Or.inl rfl
      · exact hA 0 inner
    exact this
  | coopB => exact hB F t
  | noncoopB =>
    have : CoopNoncoop.step_noncoop_B F s t inner = s ∨
        ∃ i x, CoopNoncoop.step_noncoop_B F s t inner = s.set i x := by
      unfold CoopNoncoop.step_noncoop_B
      split_ifs
      · exact Or.inr ⟨_, _, rfl⟩
      · exact Or.inl rfl
      · exact hB 0 inner
    exact this
  | coopC => exact hC F t
  | noncoopC =>
    have : CoopNoncoop.step_noncoop_C F s t inner = s ∨
        ∃ i x, CoopNoncoop.step_noncoop_C F s t inner = s.set i x := by
      unfold CoopNoncoop.step_noncoop_C
      split_ifs
      · exact Or.inr ⟨_, _, rfl⟩
      · exact hC 0 inner
    exact this

lemma stepVariant_length (v : StepVariant) (F : ℚ) (s : List Mark)
    (t inner : Tick) : (stepVariant v F s t inner).length = s.length := by
  rcases stepVariant_shape v F s t inner with h | ⟨i, x, h⟩
  · rw [h]
  · rw [h, List.length_set]

lemma alpha_zero : alpha 0 = 0 := by norm_num [alpha]

/-- On a tick landing on noise, every variant rewrites exactly the site
`noiseTarget` with the shared noise sub-rule fed the draw `noiseDraw`. -/
lemma noiseBranch (v : StepVariant) (F : ℚ) (s : List Mark) (t inner : Tick)
    (h : alpha F ≤ t.r0) (hin : 0 ≤ inner.r0) :
    stepVariant v F s t inner =
      s.set (noiseTarget v t inner)
        (noiseUpdate (s.getD (noiseTarget v t inner) .U)
          (noiseDraw v t inner)) := by
  have hn : ¬ t.r0 < alpha F := not_lt.mpr h
  have hn0 : ¬ inner.r0 < alpha 0 := by rw [alpha_zero]; exact not_lt.mpr hin
  cases v with
  | avgStep =>
    simp [stepVariant, AvgLifetime.step, hn, noiseTarget, noiseDraw,
      delegatesNoise]
  | global =>
    simp [stepVariant, SpatialRecruit.standard, hn, noiseTarget, noiseDraw,
      delegatesNoise]
  | neighbour =>
    simp [stepVariant, SpatialRecruit.neighbour_limited,
      SpatialRecruit.standard, hn, hn0, noiseTarget, noiseDraw,
      delegatesNoise]
  | powerlaw =>
    simp [stepVariant, SpatialRecruit.power_law_contact,
      SpatialRecruit.standard, hn, hn0, noiseTarget, noiseDraw,
      delegatesNoise]
  | coopA =>
    simp [stepVariant, CoopNoncoop.step_coop_A, hn, noiseTarget, noiseDraw,
      delegatesNoise]
  | noncoopA =>
    simp [stepVariant, CoopNoncoop.step_noncoop_A, CoopNoncoop.step_coop_A,
      hn, hn0, noiseTarget, noiseDraw, delegatesNoise]
  | coopB =>
    simp [stepVariant, CoopNoncoop.step_coop_B, hn, noiseTarget, noiseDraw,
      delegatesNoise]
  | noncoopB =>
    simp [stepVariant, CoopNoncoop.step_noncoop_B, CoopNoncoop.step_coop_B,
      hn, hn0, noiseTarget, noiseDraw, delegatesNoise]
  | coopC =>
    simp [stepVariant, CoopNoncoop.step_coop_C, hn, noiseTarget, noiseDraw,
      delegatesNoise]
  | noncoopC =>
    simp [stepVariant, CoopNoncoop.step_noncoop_C, CoopNoncoop.step_coop_C,
      hn, hn0, noiseTarget, noiseDraw, delegatesNoise]

lemma mark_cases (m : Mark) : m = .A ∨ m = .U ∨ m = .M := by
  cases m
  · exact Or.inl rfl
  · exact Or.inr (Or.inl rfl)
  · exact Or.inr (Or.inr rfl)

lemma track_none (labs : List (Option DomLabel))
    (h : ∀ l ∈ labs, l = none) (d : ℕ) :
    labs.foldl AvgLifetime.trackStep ⟨none, d, []⟩ =
      ⟨none, d + labs.length, []⟩ := by
  induction labs generalizing d with
  | nil => simp
  | cons l rest ih =>
    have hl : l = none := h l (List.mem_cons_self l rest)
    have hr : ∀ x ∈ rest, x = none := fun x hx => h x (List.mem_cons_of_mem l hx)
    subst hl
    show rest.foldl AvgLifetime.trackStep (AvgLifetime.trackStep ⟨none, d, []⟩ none) = _
    rw [show AvgLifetime.trackStep ⟨none, d, []⟩ none =
        (⟨none, d + 1, []⟩ : AvgLifetime.TrackSt) by simp [AvgLifetime.trackStep]]
    rw [ih hr]
    simp [List.length_cons]
    omega

lemma gapContrib_nonneg (s : List Mark) : 0 ≤ AvgLifetime.gapContrib s := by
  unfold AvgLifetime.gapContrib
  split_ifs with h
  · positivity
  · exact le_refl 0

lemma gapContrib_le_one (s : List Mark) : AvgLifetime.gapContrib s ≤ 1 := by
  unfold AvgLifetime.gapContrib
  split_ifs with h
  · have hpos : (0:ℚ) < (countMark s .M : ℚ) + (countMark s .A : ℚ) := by
      have : (0:ℚ) < ((countMark s .M + countMark s .A : ℕ) : ℚ) := by
        exact_mod_cast h
      push_cast at this
      linarith
    rw [div_le_one hpos, abs_sub_le_iff]
    have h1 : (0:ℚ) ≤ (countMark s .M : ℚ) := Nat.cast_nonneg _
    have h2 : (0:ℚ) ≤ (countMark s .A : ℚ) := Nat.cast_nonneg _
    constructor <;> linarith
  · norm_num

lemma trajStates_length (F : ℚ) (s : List Mark) (ticks : List Tick) :
    (AvgLifetime.trajStates F s ticks).length = ticks.length := by
  induction ticks generalizing s with
  | nil => rfl
  | cons t rest ih => simp [AvgLifetime.trajStates, ih]

lemma gap_fold (F : ℚ) (ticks : List Tick) (s : List Mark) (c : ℚ) :
    ticks.foldl (fun (p : List Mark × ℚ) t =>
        (AvgLifetime.step F p.1 t,
          p.2 + AvgLifetime.gapContrib (AvgLifetime.step F p.1 t))) (s, c) =
      (AvgLifetime.stepTraj F s ticks,
        c + ((AvgLifetime.trajStates F s ticks).map AvgLifetime.gapContrib).sum) := by
  induction ticks generalizing s c with
  | nil => simp [AvgLifetime.stepTraj, AvgLifetime.trajStates]
  | cons t rest ih =>
    show rest.foldl _ (AvgLifetime.step F s t,
        c + AvgLifetime.gapContrib (AvgLifetime.step F s t)) = _
    rw [ih]
    simp only [AvgLifetime.stepTraj, List.foldl_cons, AvgLifetime.trajStates,
      List.map_cons, List.sum_cons]
    rw [add_assoc]

/-- Claim C1: for every initial state and every finite sequence of ticks of
any step variant (global / neighbour-limited / power-law, cooperative or
non-cooperative, regimes A/B/C), the resulting state has exactly as many
entries as the initial one, each drawn from the 3-valued mark enumeration. -/
theorem c1_state_invariant (qs : List (StepVariant × ℚ × Tick × Tick))
    (s : List Mark) :
    (runVariants qs s).length = s.length ∧
      ∀ m ∈ runVariants qs s, m = .A ∨ m = .U ∨ m = .M := by
  constructor
  · induction qs generalizing s with
    | nil => rfl
    | cons q rest ih =>
      calc (runVariants (q :: rest) s).length
          = (runVariants rest (stepVariant q.1 q.2.1 s q.2.2.1 q.2.2.2)).length :=
            rfl
        _ = (stepVariant q.1 q.2.1 s q.2.2.1 q.2.2.2).length := ih _
        _ = s.length := stepVariant_length _ _ _ _ _
  · intro m _
    exact mark_cases m

/-- Claim C8: every single tick of every step variant mutates at most one
site: there is an index i such that every other site carries the same mark
after the tick as before it. -/
theorem c8_frame_at_most_one_site (v : StepVariant) (F : ℚ) (s : List Mark)
    (t inner : Tick) :
    ∃ i : ℕ, ∀ j : ℕ, j ≠ i →
      (stepVariant v F s t inner).getD j .U = s.getD j .U := by
  rcases stepVariant_shape v F s t inner with h | ⟨i, x, h⟩
  · exact ⟨0, fun j _ => by rw [h]⟩
  · exact ⟨i, fun j hj => by rw [h, getD_set_ne _ _ _ _ _ hj]⟩

/-- Claim C10: the two 1.5-fold dominance conditions are mutually
exclusive for natural counts, so the classification assigns at most one
dominance label and does not depend on the order in which the two
conditions are tested. -/
theorem c10_dominance_exclusive (m a : ℕ) :
    ¬((m : ℚ) > 1.5 * a ∧ (a : ℚ) > 1.5 * m) ∧
      AvgLifetime.label m a = AvgLifetime.labelAFirst m a := by
  have hm : (0:ℚ) ≤ (m : ℚ) := Nat.cast_nonneg m
  have ha : (0:ℚ) ≤ (a : ℚ) := Nat.cast_nonneg a
  constructor
  · rintro ⟨h1, h2⟩
    nlinarith
  · unfold AvgLifetime.label AvgLifetime.labelAFirst
    split_ifs with h1 h2 h3 <;> first
      | rfl
      | (exfalso; nlinarith)

/-- Claim C5: feeding the lifetime tracker the label sequence
M, M, M, mixed, A, A, mixed, mixed, M records exactly the durations
3, 2, 1 (the trailing M run of length 1 is flushed at trajectory end, and
null labels close open runs without being recorded), the returned mean is
2, and a trajectory in which no non-null run was ever recorded returns 0. -/
theorem c5_lifetime_tracker :
    AvgLifetime.recordedDurations c5Labels = [3, 2, 1] ∧
    AvgLifetime.lifetimeFromLabels c5Labels = 2 ∧
    ∀ labs : List (Option DomLabel), (∀ l ∈ labs, l = none) →
      AvgLifetime.lifetimeFromLabels labs = 0 := by
  have h1 : AvgLifetime.recordedDurations c5Labels = [3, 2, 1] := by decide
  refine ⟨h1, ?_, ?_⟩
  · unfold AvgLifetime.lifetimeFromLabels AvgLifetime.meanOrZero
    rw [h1, if_neg (by decide : ¬([3, 2, 1] : List ℕ) = [])]
    norm_num
  · intro labs h
    unfold AvgLifetime.lifetimeFromLabels AvgLifetime.recordedDurations
    rw [show AvgLifetime.trackInit = (⟨none, 0, []⟩ : AvgLifetime.TrackSt) from rfl,
      track_none labs h 0]
    simp [AvgLifetime.trackFlush, AvgLifetime.meanOrZero]

/-- Witness for C5: a trajectory whose labels are all null records nothing
and returns 0. -/
theorem c5_lifetime_tracker_witness :
    (∀ l ∈ ([none, none] : List (Option DomLabel)), l = none) ∧
      AvgLifetime.lifetimeFromLabels [none, none] = 0 :=
  ⟨by decide, c5_lifetime_tracker.2.2 [none, none] (by decide)⟩

/-- Claim C7: in the cooperative variants of Cases A, B and C, a feedback
tick mutates the state only when the two recruiter draws agree on a mark
other than U; when they disagree, or agree on U, the tick performs no
mutation at all. -/
theorem c7_coop_consensus (F : ℚ) (s : List Mark) (t : Tick)
    (hf : t.r0 < alpha F) :
    ((s.getD t.n2 .U ≠ s.getD t.n3 .U ∨ s.getD t.n2 .U = .U) →
      CoopNoncoop.step_coop_A F s t = s ∧ CoopNoncoop.step_coop_B F s t = s ∧
        CoopNoncoop.step_coop_C F s t = s) ∧
    ((CoopNoncoop.step_coop_A F s t ≠ s ∨ CoopNoncoop.step_coop_B F s t ≠ s ∨
        CoopNoncoop.step_coop_C F s t ≠ s) →
      s.getD t.n2 .U = s.getD t.n3 .U ∧ s.getD t.n2 .U ≠ .U) := by
  have hpart1 : (s.getD t.n2 .U ≠ s.getD t.n3 .U ∨ s.getD t.n2 .U = .U) →
      CoopNoncoop.step_coop_A F s t = s ∧ CoopNoncoop.step_coop_B F s t = s ∧
        CoopNoncoop.step_coop_C F s t = s := by
    intro h
    have hg : ¬(s.getD t.n2 .U = s.getD t.n3 .U ∧ s.getD t.n2 .U ≠ .U) := by
      rcases h with h | h
      · exact fun hc => h hc.1
      · exact fun hc => hc.2 h
    refine ⟨?_, ?_, ?_⟩
    · unfold CoopNoncoop.step_coop_A
      rw [if_pos hf, if_neg hg]
    · unfold CoopNoncoop.step_coop_B
      rw [if_pos hf, if_neg hg]
    · by_cases heq : s.getD t.n2 .U = s.getD t.n3 .U
      · have hU : s.getD t.n2 .U = .U := by
          rcases h with h | h
          · exact absurd heq h
          · exact h
        have hrd : recruitDemod (s.getD t.n1 .U) (s.getD t.n2 .U) =
            s.getD t.n1 .U := by
          rw [hU]
          cases s.getD t.n1 Mark.U <;> rfl
        unfold CoopNoncoop.step_coop_C
        rw [if_pos hf, if_pos heq, hrd]
        exact set_getD_self s t.n1 .U
      · unfold CoopNoncoop.step_coop_C
        rw [if_pos hf, if_neg heq]
  constructor
  · exact hpart1
  · intro hne
    by_cases hg : s.getD t.n2 .U = s.getD t.n3 .U ∧ s.getD t.n2 .U ≠ .U
    · exact hg
    · exfalso
      rw [not_and_or, not_not] at hg
      obtain ⟨e1, e2, e3⟩ := hpart1 hg
      rcases hne with h | h | h
      · exact h e1
      · exact h e2
      · exact h e3

/-- Witness for C7: at F = 1 with coin 0 the feedback branch is taken, and
with recruiters reading M and A (disagreement) the cooperative Case-A step
changes nothing. -/
theorem c7_coop_consensus_witness :
    tkC7.r0 < alpha 1 ∧ CoopNoncoop.step_coop_A 1 [Mark.M, Mark.A] tkC7 =
      [Mark.M, Mark.A] := by
  have hf : tkC7.r0 < alpha 1 := by norm_num [tkC7, alpha]
  exact ⟨hf,
    ((c7_coop_consensus 1 [Mark.M, Mark.A] tkC7 hf).1 (Or.inl (by decide))).1⟩

/-- Claim C4 (amended): on every tick landing on noise, the noise sub-rule
is applied at the target of the branch that executes it: the tick's own
target n1 in the variants with an inline noise branch, and the freshly
drawn target of the delegated F = 0 call in the wrapper variants. -/
theorem c4_noise_target (v : StepVariant) (F : ℚ) (s : List Mark)
    (t inner : Tick) (h : alpha F ≤ t.r0) (hin : 0 ≤ inner.r0) :
    stepVariant v F s t inner =
      s.set (noiseTarget v t inner)
        (noiseUpdate (s.getD (noiseTarget v t inner) .U)
          (noiseDraw v t inner)) ∧
    (delegatesNoise v = false → noiseTarget v t inner = t.n1) ∧
    (delegatesNoise v = true → noiseTarget v t inner = inner.n1) :=
  ⟨noiseBranch v F s t inner h hin,
    fun hd => by simp [noiseTarget, hd],
    fun hd => by simp [noiseTarget, hd]⟩

/-- Witness for C4: at F = 1 with outer coin 1/2 the non-cooperative
Case-A step lands on noise and rewrites exactly the delegated target. -/
theorem c4_noise_target_witness :
    (alpha 1 ≤ tkOuterC4.r0 ∧ 0 ≤ tkInnerC4.r0) ∧
      stepVariant .noncoopA 1 [Mark.A, Mark.A] tkOuterC4 tkInnerC4 =
        List.set [Mark.A, Mark.A] (noiseTarget .noncoopA tkOuterC4 tkInnerC4)
          (noiseUpdate (List.getD [Mark.A, Mark.A]
            (noiseTarget .noncoopA tkOuterC4 tkInnerC4) Mark.U)
            (noiseDraw .noncoopA tkOuterC4 tkInnerC4)) := by
  have h1 : alpha 1 ≤ tkOuterC4.r0 := by norm_num [alpha, tkOuterC4]
  have h2 : (0:ℚ) ≤ tkInnerC4.r0 := by norm_num [tkInnerC4]
  exact ⟨⟨h1, h2⟩,
    (c4_noise_target .noncoopA 1 [Mark.A, Mark.A] tkOuterC4 tkInnerC4 h1 h2).1⟩

/-- Counterexample to C4 as stated: a noise tick of the non-cooperative
Case-A step (F = 1, outer coin 1/2 = alpha) applies the noise sub-rule at
the freshly drawn inner target (site 1), not at the target n1 = 0 drawn at
the start of the tick; the result differs from applying the noise sub-rule
at the outer n1. -/
theorem c4_noise_target_cex :
    alpha 1 ≤ tkOuterC4.r0 ∧
    stepVariant .noncoopA 1 [Mark.A, Mark.A] tkOuterC4 tkInnerC4 =
      [Mark.A, Mark.U] ∧
    stepVariant .noncoopA 1 [Mark.A, Mark.A] tkOuterC4 tkInnerC4 ≠
      List.set [Mark.A, Mark.A] tkOuterC4.n1
        (noiseUpdate (List.getD [Mark.A, Mark.A] tkOuterC4.n1 Mark.U)
          tkOuterC4.rn) := by
  have h1 : ¬ tkOuterC4.r0 < alpha 1 := by norm_num [alpha, tkOuterC4]
  have h2 : ¬ tkInnerC4.r0 < alpha 0 := by norm_num [alpha, tkInnerC4]
  have h3 : (0:ℚ) < 1/3 := by norm_num
  have heval : stepVariant .noncoopA 1 [Mark.A, Mark.A] tkOuterC4 tkInnerC4 =
      [Mark.A, Mark.U] := by
    show CoopNoncoop.step_noncoop_A 1 [Mark.A, Mark.A] tkOuterC4 tkInnerC4 = _
    unfold CoopNoncoop.step_noncoop_A
    rw [if_neg h1]
    unfold CoopNoncoop.step_coop_A
    rw [if_neg h2]
    simp [tkInnerC4, noiseUpdate, h3]
  have hrhs : List.set [Mark.A, Mark.A] tkOuterC4.n1
      (noiseUpdate (List.getD [Mark.A, Mark.A] tkOuterC4.n1 Mark.U)
        tkOuterC4.rn) = [Mark.U, Mark.A] := by
    simp [tkOuterC4, noiseUpdate, h3]
  refine ⟨by norm_num [alpha, tkOuterC4], heval, ?_⟩
  rw [heval, hrhs]
  decide

/-- Claim C6: the noise sub-rule sends A to U exactly when r is below 1/3,
sends U to A below 1/3, U to M between 1/3 and 2/3, keeps U at or above
2/3, sends M to U below 1/3, and is the rule applied (to a single site) by
the noise branch of every step variant and regime. -/
theorem c6_noise_subrule (r : ℚ) (v : StepVariant) (F : ℚ) (s : List Mark)
    (t inner : Tick) (h : alpha F ≤ t.r0) (hin : 0 ≤ inner.r0) :
    ((noiseUpdate .A r = .U ↔ r < 1/3) ∧ (noiseUpdate .A r = .A ↔ 1/3 ≤ r) ∧
     (noiseUpdate .U r = .A ↔ r < 1/3) ∧
     (noiseUpdate .U r = .M ↔ 1/3 ≤ r ∧ r < 2/3) ∧
     (noiseUpdate .U r = .U ↔ 2/3 ≤ r) ∧
     (noiseUpdate .M r = .U ↔ r < 1/3) ∧ (noiseUpdate .M r = .M ↔ 1/3 ≤ r)) ∧
    ∃ i rr, stepVariant v F s t inner =
      s.set i (noiseUpdate (s.getD i .U) rr) := by
  refine ⟨?_, ⟨_, _, noiseBranch v F s t inner h hin⟩⟩
  unfold noiseUpdate
  refine ⟨?_, ?_, ?_, ?_, ?_, ?_, ?_⟩ <;> split_ifs with h1 h2 <;>
    simp_all <;> intros <;> linarith

/-- Witness for C6: a concrete noise tick of the avg-lifetime step
rewrites one site with the noise sub-rule. -/
theorem c6_noise_subrule_witness :
    ∃ i rr, stepVariant .avgStep 0 [Mark.U] tkZero tkZero =
      List.set [Mark.U] i (noiseUpdate (List.getD [Mark.U] i Mark.U) rr) :=
  (c6_noise_subrule 0 .avgStep 0 [Mark.U] tkZero tkZero
    (by norm_num [alpha, tkZero]) (by norm_num [tkZero])).2

/-- Claim C3 (amended): the operations perform no parameter validation and
raise nothing; with an invalid F the step still executes a full update:
for every F < -1 the feedback coin 1/2 is below alpha, so a recruited
conversion completes (here turning the state U,M into M,M), and for every
state the step returns a same-length state rather than an error. -/
theorem c3_no_validation (F : ℚ) (s : List Mark) (t : Tick) (hF : F < -1) :
    (AvgLifetime.step F s t).length = s.length ∧
      AvgLifetime.step F [Mark.U, Mark.M] tkC3 = [Mark.M, Mark.M] := by
  have hhalf : (1:ℚ)/2 < alpha F := by
    have hden : 1 + F < 0 := by linarith
    rw [alpha, lt_div_iff_of_neg hden]
    linarith
  constructor
  · unfold AvgLifetime.step
    split_ifs <;> rw [List.length_set]
  · have hf : tkC3.r0 < alpha F := hhalf
    unfold AvgLifetime.step
    rw [if_pos hf]
    decide

/-- Witness for C3 (amended): at the invalid parameter F = -2 the step
completes a recruited conversion. -/
theorem c3_no_validation_witness :
    ((-2 : ℚ) < -1) ∧
      AvgLifetime.step (-2) [Mark.U, Mark.M] tkC3 = [Mark.M, Mark.M] :=
  ⟨by norm_num, (c3_no_validation (-2) [] tkZero (by norm_num)).2⟩

/-- Counterexample to C3 as stated: calling the step with the invalid
parameter F = -2 < 0 raises no invalid-parameter error; a full simulation
step is executed and the state is mutated. -/
theorem c3_no_validation_cex :
    ((-2 : ℚ) < 0) ∧
    AvgLifetime.step (-2) [Mark.U, Mark.M] tkC3 = [Mark.M, Mark.M] ∧
    ([Mark.M, Mark.M] : List Mark) ≠ [Mark.U, Mark.M] := by
  have hf : tkC3.r0 < alpha (-2) := by norm_num [tkC3, alpha]
  refine ⟨by norm_num, ?_, by decide⟩
  unfold AvgLifetime.step
  rw [if_pos hf]
  decide

/-- Claim C2: for every F at least 0 and every RNG stream, the gap
collector returns the sum, over the post-equilibration main-loop ticks, of
the gap samples taken only on ticks with M + A positive, divided by the
number of main-loop ticks unconditionally, and this value lies in [0,1]. -/
theorem c2_gap_measure (F : ℚ) (s0 : List Mark)
    (eqTicks mainTicks : List Tick) (hF : 0 ≤ F)
    (hlen : 0 < mainTicks.length) :
    AvgLifetime.compute_gap_measure F s0 eqTicks mainTicks =
      AvgLifetime.gapSamplesSum F s0 eqTicks mainTicks / mainTicks.length ∧
    0 ≤ AvgLifetime.compute_gap_measure F s0 eqTicks mainTicks ∧
    AvgLifetime.compute_gap_measure F s0 eqTicks mainTicks ≤ 1 := by
  have hfold : AvgLifetime.compute_gap_measure F s0 eqTicks mainTicks =
      AvgLifetime.gapSamplesSum F s0 eqTicks mainTicks / mainTicks.length := by
    unfold AvgLifetime.compute_gap_measure AvgLifetime.gapSamplesSum
    rw [gap_fold]
    simp
  have hsum0 : 0 ≤ AvgLifetime.gapSamplesSum F s0 eqTicks mainTicks := by
    unfold AvgLifetime.gapSamplesSum
    apply List.sum_nonneg
    intro x hx
    obtain ⟨st, _, rfl⟩ := List.mem_map.mp hx
    exact gapContrib_nonneg st
  have hsum1 : AvgLifetime.gapSamplesSum F s0 eqTicks mainTicks ≤
      (mainTicks.length : ℚ) := by
    unfold AvgLifetime.gapSamplesSum
    have hb := List.sum_le_card_nsmul
      ((AvgLifetime.trajStates F (AvgLifetime.stepTraj F s0 eqTicks)
        mainTicks).map AvgLifetime.gapContrib) 1 ?_
    · rw [List.length_map, trajStates_length] at hb
      simpa [nsmul_eq_mul] using hb
    · intro x hx
      obtain ⟨st, _, rfl⟩ := List.mem_map.mp hx
      exact gapContrib_le_one st
  have hlenQ : (0:ℚ) < (mainTicks.length : ℚ) := by exact_mod_cast hlen
  refine ⟨hfold, ?_, ?_⟩
  · rw [hfold]
    exact div_nonneg hsum0 hlenQ.le
  · rw [hfold]
    exact (div_le_one hlenQ).mpr hsum1

/-- Witness for C2: at F = 0 with a one-tick main loop the gap measure is
the (single) valid sample divided by the tick count. -/
theorem c2_gap_measure_witness :
    ((0:ℚ) ≤ 0 ∧ 0 < ([tkZero] : List Tick).length) ∧
      AvgLifetime.compute_gap_measure 0 [Mark.M] [] [tkZero] =
        AvgLifetime.gapSamplesSum 0 [Mark.M] [] [tkZero] /
          (([tkZero] : List Tick).length : ℚ) :=
  ⟨⟨le_refl 0, by decide⟩,
    (c2_gap_measure 0 [Mark.M] [] [tkZero] (le_refl 0) (by decide)).1⟩

/-- Claim C9: for every N at least 2, the power-law recruiter distance
distribution with weights d ^ (-1.5) over distances 1 .. N-1, divided by
their total, is a probability mass function: non-negative, summing to 1,
and non-increasing in the distance. -/
theorem c9_power_law_pmf (N : ℕ) (hN : 2 ≤ N) :
    (∀ d ∈ Finset.Icc 1 (N - 1), 0 ≤ SpatialRecruit.power_probs N d) ∧
    (∑ d in Finset.Icc 1 (N - 1), SpatialRecruit.power_probs N d = 1) ∧
    (∀ d e, d ∈ Finset.Icc 1 (N - 1) → e ∈ Finset.Icc 1 (N - 1) → d ≤ e →
      SpatialRecruit.power_probs N e ≤ SpatialRecruit.power_probs N d) := by
  have hwpos : ∀ d : ℕ, 1 ≤ d → 0 < SpatialRecruit.power_weight d := by
    intro d hd
    unfold SpatialRecruit.power_weight
    have hd3 : (0:ℝ) < (d:ℝ) ^ 3 := by
      have : (0:ℝ) < (d:ℝ) := by exact_mod_cast hd
      positivity
    exact one_div_pos.mpr (Real.sqrt_pos.mpr hd3)
  have htot : 0 < ∑ k in Finset.Icc 1 (N - 1), SpatialRecruit.power_weight k := by
    apply Finset.sum_pos
    · intro i hi
      exact hwpos i (Finset.mem_Icc.mp hi).1
    · rw [Finset.nonempty_Icc]
      omega
  refine ⟨?_, ?_, ?_⟩
  · intro d hd
    unfold SpatialRecruit.power_probs
    exact div_nonneg (hwpos d (Finset.mem_Icc.mp hd).1).le htot.le
  · unfold SpatialRecruit.power_probs
    rw [← Finset.sum_div, div_self htot.ne']
  · intro d e hd he hde
    unfold SpatialRecruit.power_probs
    apply div_le_div_of_nonneg_right ?_ htot.le
    unfold SpatialRecruit.power_weight
    have hd1 : 1 ≤ d := (Finset.mem_Icc.mp hd).1
    have hsd : (0:ℝ) < Real.sqrt ((d:ℝ) ^ 3) := by
      apply Real.sqrt_pos.mpr
      have : (0:ℝ) < (d:ℝ) := by exact_mod_cast hd1
      positivity
    apply one_div_le_one_div_of_le hsd
    apply Real.sqrt_le_sqrt
    gcongr

/-- Witness for C9: at N = 60 the generated distance PMF over 1 .. 59 sums
to 1. -/
theorem c9_power_law_pmf_witness :
    ∑ d in Finset.Icc 1 (60 - 1), SpatialRecruit.power_probs 60 d = 1 :=
  (c9_power_law_pmf 60 (by norm_num)).2.1
